import Mathlib

/-!
Shallow embedding of the HybridShotgunBatcher scheduler
(src/HybridShotgunBatcher/HsbTargeter.js and src/HybridShotgunBatcher/SetupServer.js).

JS numbers are modelled as rationals (ℚ); integer-valued thread counts as ℤ
(all `Math.ceil`/`Math.floor` sites use `Int.ceil`/`Int.floor`).  A single
scheduling instant `now` stands for `Date.now()` during one tick.  Modules of
the repository that are imported by the two source files but are not part of
the source tree (Settings, SecHoles, Batching, Helpers, EstimateX) are
modelled from the specification and are marked as such in their doc comments.
-/

namespace HSB

/-- Modelled from the spec: the per-operation-kind RAM cost table (`RamUsage`
from the Helpers module, which is not under src/): a fixed cost per thread for
each of the three operation kinds. -/
structure CostTable where
  weakenRam : ℚ
  growRam : ℚ
  hackRam : ℚ
deriving DecidableEq

/-- Modelled from the spec: the operation-count vector `Threads` (Helpers
module, not under src/): three integer operation counts (stabilize = weaken,
grow, extract = hack) with a derived weighted resource cost and component-wise
equality. Constructor argument order follows `new Threads(hack, grow, weaken)`
as used by the source (`new Threads(0, 0, weakenThreads)` builds a pure weaken
batch). -/
structure Threads where
  hack : ℤ
  grow : ℤ
  weaken : ℤ
deriving DecidableEq

/-- Derived resource cost of an operation-count vector: weighted sum with the
per-operation-kind cost table (`Threads.ramUsage` in the Helpers module). -/
def ramUsage (ct : CostTable) (t : Threads) : ℚ :=
  (t.hack : ℚ) * ct.hackRam + (t.grow : ℚ) * ct.growRam + (t.weaken : ℚ) * ct.weakenRam

/-- Cost of an optional dispatch: `0` when nothing was dispatched, otherwise
the dispatched vector's resource cost. -/
def dispatchCost (ct : CostTable) : Option Threads → ℚ
  | none => 0
  | some t => ramUsage ct t

/-- Snapshot of a server's externally queried state, as read through
`ns.getServerSecurityLevel`, `ns.getServerMinSecurityLevel`,
`ns.getServerMoneyAvailable` and `ns.getServerMaxMoney`. -/
structure ServerState where
  security : ℚ
  minSecurity : ℚ
  money : ℚ
  maxMoney : ℚ
deriving DecidableEq

/-- External pure formulas consumed by `fixSecurity`
(src/HybridShotgunBatcher/SetupServer.js): `ns.weakenAnalyze(1)` and the cost
table. -/
structure SecEnv where
  weakenAnalyze1 : ℚ
  ct : CostTable

/-- Embedding of `fixSecurity` (src/HybridShotgunBatcher/SetupServer.js,
lines 60-100).  Returns the `optimal` flag the source returns together with
the dispatched batch (`startBatch` is modelled by recording the dispatched
thread vector; `none` means nothing was dispatched). -/
def fixSecurity (env : SecEnv) (st : ServerState) (availableRam : ℚ) :
    Bool × Option Threads :=
  if availableRam = 0 then (false, none)
  else
    let fromMin := st.security - st.minSecurity
    if fromMin ≠ 0 then
      let optimalWeakenThreads : ℤ := ⌈fromMin / env.weakenAnalyze1⌉
      let maxWeakenThreads : ℤ := ⌊availableRam / env.ct.weakenRam⌋
      let weakenThreads := min optimalWeakenThreads maxWeakenThreads
      let threads : Threads := ⟨0, 0, weakenThreads⟩
      if optimalWeakenThreads ≤ maxWeakenThreads then (true, some threads)
      else (false, some threads)
    else (true, none)

/-- External pure formulas consumed by `fixMoney`
(src/HybridShotgunBatcher/SetupServer.js): `ns.growthAnalyze(target, ·)` as a
function of the growth multiplier, `ns.growthAnalyzeSecurity` as a function of
the grow-thread count, `ns.weakenAnalyze(1)`, and the cost table. -/
structure MoneyEnv where
  growthAnalyze : ℚ → ℚ
  growthAnalyzeSecurity : ℤ → ℚ
  weakenAnalyze1 : ℚ
  ct : CostTable

/-- Embedding of the `growPToRam` helper inside `fixMoney`: for a trial growth
multiplier `x` it sets `threads.grow := ceil (growthAnalyze x)` and
`threads.weaken := ceil (growthAnalyzeSecurity grow / weakenAnalyze 1)`
(hack stays 0), and the search evaluates the resulting `threads.ramUsage()`. -/
def growThreadsFor (env : MoneyEnv) (x : ℚ) : Threads :=
  let g : ℤ := ⌈env.growthAnalyze x⌉
  let secInc := env.growthAnalyzeSecurity g
  let w : ℤ := ⌈secInc / env.weakenAnalyze1⌉
  ⟨0, g, w⟩

/-- Modelled from the spec: the bounded search `estimateX` (Helpers/EstimateX,
not under src/): a deterministic, bounded bisection over a scalar multiplier
in `[lo, hi]`, evaluating the caller-supplied cost function at each trial
point and converging to the largest multiplier whose cost stays at or under
the ceiling; the fuel argument is the fixed maximum iteration count. -/
def estimateX (f : ℚ → ℚ) (budget lo hi : ℚ) : ℕ → ℚ
  | 0 => lo
  | n + 1 =>
    let mid := (lo + hi) / 2
    if f mid ≤ budget then estimateX f budget mid hi n
    else estimateX f budget lo mid n

/-- Embedding of `fixMoney` (src/HybridShotgunBatcher/SetupServer.js, lines
103-158).  Returns the fixed/not-fixed flag together with the dispatched
batch; the batch is dispatched (via `startBatch`) before the `delta < 0.5`
check, in both outcomes. -/
def fixMoney (env : MoneyEnv) (fuel : ℕ) (st : ServerState) (availableRam : ℚ) :
    Bool × Option Threads :=
  if availableRam = 0 then (false, none)
  else if st.money ≠ st.maxMoney then
    let moneyLeftP := st.money / st.maxMoney
    let maxMul := 1 / moneyLeftP
    let x := estimateX (fun y => ramUsage env.ct (growThreadsFor env y))
      availableRam 1 maxMul fuel
    let threads := growThreadsFor env x
    let delta := env.growthAnalyze maxMul + 1 - (threads.grow : ℚ)
    if delta < 1 / 2 then (true, some threads)
    else (false, some threads)
  else (true, none)

/-- Outcome of one iteration of the `fixServer` loop
(src/HybridShotgunBatcher/SetupServer.js, lines 163-185). -/
inductive FixOutcome where
  | retryAfterSecurity
  | retryAfterMoney
  | finished
deriving DecidableEq

/-- Embedding of one iteration of the `fixServer` while-loop: run
`fixSecurity`; on a `false` result restart the loop (`continue`) without
touching the money fix; otherwise run `fixMoney` (with freshly re-queried
available RAM `ram2`) and either restart or break.  The second component
records whether `fixMoney` was invoked during the iteration. -/
def fixServerStep (senv : SecEnv) (menv : MoneyEnv) (fuel : ℕ) (st : ServerState)
    (ram1 ram2 : ℚ) : FixOutcome × Bool :=
  let secRes := fixSecurity senv st ram1
  if secRes.1 = false then (.retryAfterSecurity, false)
  else
    let monRes := fixMoney menv fuel st ram2
    if monRes.1 = false then (.retryAfterMoney, true)
    else (.finished, true)

/-! ## HsbTargeter.js: data model -/

/-- Embedding of the mixed-type `targetData.fixedStatus` field
(src/HybridShotgunBatcher/HsbTargeter.js): either the sentinel strings
`"fixed"` / `"fixing"` or a numeric deadline (the exec time of the fix
batch). -/
inductive FixedStatus where
  | fixed
  | fixing
  | pendingAt (deadline : ℚ)
deriving DecidableEq

/-- Numeric value of a `fixedStatus` that is a number; the string cases are
never reached through this accessor in the embedded control flow (the source
compares against the sentinel strings first). -/
def FixedStatus.deadline : FixedStatus → ℚ
  | .pendingAt t => t
  | _ => 0

/-- Per-target record built by `getTargetsData`
(src/HybridShotgunBatcher/HsbTargeter.js, lines 130-145). -/
structure TargetData where
  execTime : ℚ
  fixedStatus : FixedStatus
  batch : Threads
  baseSecurity : ℚ
  baseMoney : ℚ
deriving DecidableEq

/-- Externally queried, per-target values consumed by HsbTargeter.js during
one scheduling instant: server state plus root access, the required hacking
level, `ns.getWeakenTime`, `getMinSecWeakenTime` and the external
`getMoneyPerMs` yield formula (Other module, not under src/). -/
structure TargetObs where
  security : ℚ
  minSecurity : ℚ
  money : ℚ
  maxMoney : ℚ
  hasRoot : Bool
  requiredHackingLevel : ℚ
  weakenTime : ℚ
  minSecWeakenTime : ℚ
  moneyPerMs : ℚ
deriving DecidableEq

/-- One entry of the `targetsData` map: the target's name together with its
observed external state and its mutable record. -/
structure TargetEntry where
  name : String
  obs : TargetObs
  data : TargetData
deriving DecidableEq

/-- Modelled from the spec: the constants imported from the Settings module
(not under src/): `averageBatchASec`, `execMargin`, `maxShotgunShells` and
`minDeltaBatchExec` (the fixed minimum gap between batch executions). -/
structure Settings where
  averageBatchASec : ℚ
  execMargin : ℚ
  maxShotgunShells : ℚ
  minDeltaBatchExec : ℚ

/-- Modelled from the spec: the Timing Window Tracker (SecHoles module, not
under src/): whether an instant falls inside the recurring low-activity
window, the smallest window-end instant at or after an instant, and the next
window (sec hole) boundary after an instant.  Zero-argument uses in the
source are modelled by applying these at the current instant `now`. -/
structure SecHoles where
  inLowSecHole : ℚ → Bool
  getNextLowSecEnd : ℚ → ℚ
  getNextSecHole : ℚ → ℚ

/-! ## HsbTargeter.js: eligibility and priority -/

/-- Embedding of `ensureCanHack` (src/HybridShotgunBatcher/HsbTargeter.js,
lines 152-170), exactly as written in the source, including the
`getServerRequiredHackingLevel(target) < getHackingLevel()` comparison that
returns `false` under the comment "we need to level up". -/
def ensureCanHack (hackingLevel : ℚ) (obs : TargetObs) : Bool :=
  if obs.maxMoney = 0 then false
  else if ¬ obs.hasRoot then false
  else if obs.requiredHackingLevel < hackingLevel then false
  else true

/-- The priority metric computed by `getTargetPriority` for each target:
`getMoneyPerMs(ns, target, batch) / batch.ramUsage()`. -/
def yieldRate (ct : CostTable) (e : TargetEntry) : ℚ :=
  e.obs.moneyPerMs / ramUsage ct e.data.batch

/-- Descending order on the priority metric, as produced by
`targetInfo.sort((a, b) => b[1] - a[1])`. -/
def yieldGE (ct : CostTable) (a b : TargetEntry) : Prop :=
  yieldRate ct b ≤ yieldRate ct a

instance (ct : CostTable) : DecidableRel (yieldGE ct) :=
  fun _ _ => inferInstanceAs (Decidable (_ ≤ _))

/-- The sorted target list built by `getTargetPriority` before the budget
walk. -/
def sortByYield (ct : CostTable) (entries : List TargetEntry) : List TargetEntry :=
  List.insertionSort (yieldGE ct) entries

/-- The maximum concurrent-batch RAM footprint `maxRam` computed per target in
`getTargetPriority` (lines 201-204): `batch.ramUsage() *
((getMinSecWeakenTime + averageBatchASec) / execMargin * maxShotgunShells)`. -/
def maxRamFootprint (s : Settings) (ct : CostTable) (e : TargetEntry) : ℚ :=
  let averageBatchTime := e.obs.minSecWeakenTime + s.averageBatchASec
  let maxConcurrentBatches := averageBatchTime / s.execMargin * s.maxShotgunShells
  ramUsage ct e.data.batch * maxConcurrentBatches

/-- The budget walk of `getTargetPriority` (lines 193-215): walk the sorted
list; `continue` past a target when `ensureCanHack` returns `true` (the
source's inverted skip); otherwise push the target, and either stop — when its
footprint exceeds the remaining budget — returning it as the sub-shotgun
target with the budget remaining at that point, or subtract its footprint and
keep walking.  When the walk ends without an overflow the sub-shotgun target
is `null` with ceiling `0`. -/
def priorityWalk (s : Settings) (ct : CostTable) (hackingLevel : ℚ) (aRam : ℚ) :
    List TargetEntry → List String × (Option String × ℚ)
  | [] => ([], (none, 0))
  | e :: es =>
    if ensureCanHack hackingLevel e.obs then priorityWalk s ct hackingLevel aRam es
    else
      let maxRam := maxRamFootprint s ct e
      if maxRam > aRam then ([e.name], (some e.name, aRam))
      else
        let r := priorityWalk s ct hackingLevel (aRam - maxRam) es
        (e.name :: r.1, r.2)

/-- Embedding of `getTargetPriority` (src/HybridShotgunBatcher/HsbTargeter.js,
lines 173-216): build the yield-rate ranking, sort it descending, then run the
budget walk with the total available HSB RAM (`getAvailableHsbRam`, passed in
here as `availableRam` since it reads live server state). -/
def getTargetPriority (s : Settings) (ct : CostTable) (hackingLevel : ℚ)
    (availableRam : ℚ) (entries : List TargetEntry) :
    List String × (Option String × ℚ) :=
  priorityWalk s ct hackingLevel availableRam (sortByYield ct entries)

/-- The allocation walk as the specification and claim C2 describe it,
operating directly on the already-filtered list of retained targets: the
first target whose footprint exceeds the remaining budget becomes the overflow
target and is assigned exactly the budget remaining at that point (and the
walk stops, excluding every later target); every earlier target has its full
footprint subtracted; if no target overflows, the overflow target is `null`
with ceiling `0`. -/
def specWalk (s : Settings) (ct : CostTable) (aRam : ℚ) :
    List TargetEntry → List String × (Option String × ℚ)
  | [] => ([], (none, 0))
  | e :: es =>
    let fp := maxRamFootprint s ct e
    if fp > aRam then ([e.name], (some e.name, aRam))
    else
      let r := specWalk s ct (aRam - fp) es
      (e.name :: r.1, r.2)

/-- The retained targets of one cycle: the sorted list minus the entries the
source's walk skips (those on which `ensureCanHack` returns `true`). -/
def retainedTargets (ct : CostTable) (hackingLevel : ℚ)
    (entries : List TargetEntry) : List TargetEntry :=
  (sortByYield ct entries).filter (fun e => ! ensureCanHack hackingLevel e.obs)

/-! ## HsbTargeter.js: fix validation and the target state machine -/

/-- The four fatal invariant-violation errors thrown by `targetFixValid`
(src/HybridShotgunBatcher/HsbTargeter.js, lines 225-288).  Each error message
interpolates the stored baseline value and the currently observed value; the
embedding records those two interpolated values as the constructor's
arguments, in message order (baseline first, observed second). -/
inductive FixError where
  | securityAboveBase (base observed : ℚ)
  | securityBelowBase (base observed : ℚ)
  | moneyAboveBase (base observed : ℚ)
  | moneyBelowBase (base observed : ℚ)
deriving DecidableEq

instance {ε α : Type} [DecidableEq ε] [DecidableEq α] : DecidableEq (Except ε α) :=
  fun a b =>
    match a, b with
    | .error x, .error y =>
      if h : x = y then isTrue (congrArg Except.error h)
      else isFalse (fun hc => h (Except.error.inj hc))
    | .error _, .ok _ => isFalse (fun hc => Except.noConfusion hc)
    | .ok _, .error _ => isFalse (fun hc => Except.noConfusion hc)
    | .ok x, .ok y =>
      if h : x = y then isTrue (congrArg Except.ok h)
      else isFalse (fun hc => h (Except.ok.inj hc))

/-- The (baseline, observed) pair carried in a `FixError`'s message. -/
def fixErrorData : FixError → ℚ × ℚ
  | .securityAboveBase b o => (b, o)
  | .securityBelowBase b o => (b, o)
  | .moneyAboveBase b o => (b, o)
  | .moneyBelowBase b o => (b, o)

/-- The message payload of an `Except FixError` result: `none` when no error
was thrown, otherwise the (baseline, observed) pair in the message. -/
def exceptFixErrorData {α : Type} : Except FixError α → Option (ℚ × ℚ)
  | .error e => some (fixErrorData e)
  | .ok _ => none

/-- Embedding of `targetFixValid` (src/HybridShotgunBatcher/HsbTargeter.js,
lines 225-288): four comparisons of the observed security/money against the
stored baselines, each strict deviation throwing an error that carries both
values; returns `true` when everything matches. -/
def targetFixValid (obs : TargetObs) (d : TargetData) : Except FixError Bool :=
  if obs.security > d.baseSecurity then
    .error (.securityAboveBase d.baseSecurity obs.security)
  else if obs.security < d.baseSecurity then
    .error (.securityBelowBase d.baseSecurity obs.security)
  else if obs.money > d.baseMoney then
    .error (.moneyAboveBase d.baseMoney obs.money)
  else if obs.money < d.baseMoney then
    .error (.moneyBelowBase d.baseMoney obs.money)
  else .ok true

/-- The error behaviour of `targetFixValid` as claim C5 words it: an error is
raised exactly when the observed security differs from the stored baseline
security or the observed money differs from the stored baseline money (any
deviation, in either direction), and the error message carries the stored
baseline value and the observed value of the deviating quantity. -/
def claimFixErrorData (obs : TargetObs) (d : TargetData) : Option (ℚ × ℚ) :=
  if obs.security ≠ d.baseSecurity then some (d.baseSecurity, obs.security)
  else if obs.money ≠ d.baseMoney then some (d.baseMoney, obs.money)
  else none

/-- Embedding of `targetFixed` (src/HybridShotgunBatcher/HsbTargeter.js,
lines 291-305): the target is at baseline when security is at the minimum and
money is at the maximum. -/
def targetFixed (obs : TargetObs) : Bool :=
  if obs.security - obs.minSecurity ≠ 0 then false
  else if obs.maxMoney - obs.money ≠ 0 then false
  else true

/-- The `speedStart` configuration flag
(src/HybridShotgunBatcher/HsbTargeter.js, line 368). -/
def speedStart : Bool := true

/-- Embedding of `ensureFixed` (src/HybridShotgunBatcher/HsbTargeter.js,
lines 371-434).  `fixBatch` and `optimalFixBatch` stand for
`getBestFixBatch(ns, target, getAvailableHsbRam(ns))` and
`getOptimalFixBatch(ns, target)` (Batching module, not under src/, so the
composed batches are taken as inputs).  Returns the ready-to-hsb flag, the
updated record, and the dispatched fix batch with its exec time (`none` when
nothing was dispatched).  In the "needs another batch" branch the source
executes `targetData.fixedStatus == targetData.execTime` — a comparison whose
result is discarded, not an assignment — so the record's `fixedStatus` is left
unchanged there. -/
def ensureFixed (s : Settings) (obs : TargetObs) (now : ℚ)
    (fixBatch optimalFixBatch : Threads) (d : TargetData) :
    Bool × TargetData × Option (Threads × ℚ) :=
  if d.fixedStatus = .fixed then (true, d, none)
  else if targetFixed obs then
    (true, { d with baseSecurity := obs.security, baseMoney := obs.money,
                    fixedStatus := .fixed }, none)
  else if d.fixedStatus = .fixing then
    if speedStart then (true, d, none) else (false, d, none)
  else
    if d.fixedStatus.deadline > now then (false, d, none)
    else
      let d1 := if fixBatch = optimalFixBatch then { d with fixedStatus := .fixing }
                else d
      let dispatched := (fixBatch, d1.execTime)
      let d2 := { d1 with execTime := d1.execTime + s.minDeltaBatchExec,
                          baseSecurity := obs.security, baseMoney := obs.money }
      (false, d2, some dispatched)

/-! ## HsbTargeter.js: exec-time validation and batch scheduling -/

/-- The while-loop body of `ensureValidExecTime`
(src/HybridShotgunBatcher/HsbTargeter.js, lines 324-364), with explicit fuel
standing for the number of loop iterations; `none` means the fuel was
exhausted (the source loops unboundedly).  `wt` is `ns.getWeakenTime(target)`
and `now` the current instant (zero-argument `getNextLowSecEnd()` calls are
evaluated at `now`). -/
def validLoop (w : SecHoles) (s : Settings) (wt now : ℚ) :
    ℕ → ℚ → Option (Bool × ℚ)
  | 0, _ => none
  | fuel + 1, execTime =>
    let firstPossibleExecTime := w.getNextLowSecEnd now + s.minDeltaBatchExec + wt
    if execTime < firstPossibleExecTime then
      validLoop w s wt now fuel firstPossibleExecTime
    else if w.inLowSecHole execTime = true ∨
        w.inLowSecHole (execTime - s.minDeltaBatchExec) = true ∨
        w.getNextSecHole (execTime - s.minDeltaBatchExec) < execTime then
      validLoop w s wt now fuel (w.getNextLowSecEnd execTime + s.minDeltaBatchExec)
    else
      let firstStartTime := execTime - wt - s.minDeltaBatchExec
      let deltaFirstStartTime := firstStartTime - w.getNextLowSecEnd now
      if deltaFirstStartTime > s.execMargin then some (false, execTime)
      else some (true, execTime)

/-- Embedding of `ensureValidExecTime`
(src/HybridShotgunBatcher/HsbTargeter.js, lines 314-365): return `false`
untouched when the current instant is no longer inside the low-sec hole,
otherwise run the validation loop and store the resulting exec time back into
the record. -/
def ensureValidExecTime (w : SecHoles) (s : Settings) (wt now : ℚ) (fuel : ℕ)
    (d : TargetData) : Option (Bool × TargetData) :=
  if w.inLowSecHole now = false then some (false, d)
  else (validLoop w s wt now fuel d.execTime).map
    (fun r => (r.1, { d with execTime := r.2 }))

/-- Embedding of `getMaxBatchesForTime`
(src/HybridShotgunBatcher/HsbTargeter.js, lines 437-447). -/
def getMaxBatchesForTime (w : SecHoles) (s : Settings) (firstBatchExec : ℚ) : ℤ :=
  let lastAllowedExecTime := w.getNextSecHole firstBatchExec
  if firstBatchExec = lastAllowedExecTime - s.execMargin then 1
  else ⌈(lastAllowedExecTime - firstBatchExec) / s.execMargin⌉

/-- The per-index summand of `getSubShotgunAvailableRam`: a not-yet-complete
scheduled batch at index `i` contributes `batch.ramUsage()` times the number
of entries from `i` to the end of the list. -/
def subUsedAux (ramU now : ℚ) : List ℚ → ℚ
  | [] => 0
  | t :: ts => (if t ≥ now then ramU * ((ts.length : ℚ) + 1) else 0) + subUsedAux ramU now ts

/-- Embedding of `getSubShotgunAvailableRam`
(src/HybridShotgunBatcher/HsbTargeter.js, lines 450-477); `globalAvail`
stands for `getAvailableHsbRam(ns)`. -/
def getSubShotgunAvailableRam (ct : CostTable) (now globalAvail : ℚ)
    (batch : Threads) (times : List ℚ) (maxRam : ℚ)
    (subBatchData : Option Threads × ℚ) : ℚ :=
  let fromTimes := subUsedAux (ramUsage ct batch) now times
  let fromSub :=
    match subBatchData.1 with
    | none => 0
    | some b => if subBatchData.2 ≥ now then ramUsage ct b else 0
  max 0 (min globalAvail (maxRam - (fromTimes + fromSub)))

/-- The dispatch loop shared by the shotgun schedulers: fire `n` copies of the
batch, every dispatch at the current exec time, each strictly advancing the
exec time by `minDeltaBatchExec`; also returns the appended completion-instant
list (the sub-shotgun loop pushes each exec time before dispatching). -/
def shotgunLoop (s : Settings) (batch : Threads) :
    ℕ → ℚ → List ℚ → ℚ × List ℚ × List (Threads × ℚ)
  | 0, t, times => (t, times, [])
  | n + 1, t, times =>
    let r := shotgunLoop s batch n (t + s.minDeltaBatchExec) (times ++ [t])
    (r.1, r.2.1, (batch, t) :: r.2.2)

/-- Result of `scheduleFullShotgun`: the updated record and the dispatched
batches with their exec times. -/
structure FullSchedResult where
  data : TargetData
  dispatches : List (Threads × ℚ)
deriving DecidableEq

/-- Embedding of `scheduleFullShotgun`
(src/HybridShotgunBatcher/HsbTargeter.js, lines 536-548). -/
def scheduleFullShotgun (w : SecHoles) (s : Settings) (ct : CostTable)
    (globalAvail : ℚ) (d : TargetData) : FullSchedResult :=
  let maxBatchesForTime := getMaxBatchesForTime w s d.execTime
  let maxBatchesForRam : ℤ := ⌊globalAvail / ramUsage ct d.batch⌋
  let maxBatches := min maxBatchesForTime maxBatchesForRam
  let r := shotgunLoop s d.batch maxBatches.toNat d.execTime []
  ⟨{ d with execTime := r.1 }, r.2.2⟩

/-- Result of `scheduleSubShotgun`: updated record, new `subBatchData`, new
completion-instant list, and the dispatched batches. -/
structure SubSchedResult where
  data : TargetData
  subBatchData : Option Threads × ℚ
  times : List ℚ
  dispatches : List (Threads × ℚ)
deriving DecidableEq

/-- Embedding of `scheduleSubShotgun`
(src/HybridShotgunBatcher/HsbTargeter.js, lines 483-530).  `bestMoneyBatch`
stands for `getBestMoneyBatch(ns, target, ·)` (Batching module, not under
src/).  The JS remainder `availableRam % batch.ramUsage()` is modelled as
`availableRam - floor(availableRam / ramUsage) * ramUsage`. -/
def scheduleSubShotgun (w : SecHoles) (s : Settings) (ct : CostTable)
    (now globalAvail : ℚ) (d : TargetData) (times : List ℚ) (maxRam : ℚ)
    (subBatchData : Option Threads × ℚ) (bestMoneyBatch : ℚ → Threads) :
    SubSchedResult :=
  let availableRam := getSubShotgunAvailableRam ct now globalAvail d.batch times
    maxRam subBatchData
  let maxBatchesForRam : ℤ := ⌊availableRam / ramUsage ct d.batch⌋
  let maxBatchesForTime := getMaxBatchesForTime w s d.execTime
  let maxBatches := min maxBatchesForRam maxBatchesForTime
  let r := shotgunLoop s d.batch maxBatches.toNat d.execTime times
  let execTime1 := r.1
  if 1 ≤ getMaxBatchesForTime w s execTime1 then
    if subBatchData.2 < now then
      let subBatchRam := availableRam - (⌊availableRam / ramUsage ct d.batch⌋ : ℚ) *
        ramUsage ct d.batch
      let subBatch := bestMoneyBatch subBatchRam
      ⟨{ d with execTime := execTime1 + s.minDeltaBatchExec },
        (some subBatch, execTime1), r.2.1, r.2.2 ++ [(subBatch, execTime1)]⟩
    else ⟨{ d with execTime := execTime1 }, subBatchData, r.2.1, r.2.2⟩
  else ⟨{ d with execTime := execTime1 }, subBatchData, r.2.1, r.2.2⟩

/-! ## HsbTargeter.js: the main scheduling loop -/

/-- The sub-shotgun tracking state carried across cycles by `multiServerHSb`
(src/HybridShotgunBatcher/HsbTargeter.js, lines 558-563). -/
structure SubState where
  subShotgunTarget : Option String
  subShotgunBatchExecTimes : List ℚ
  subShotgunMaxRam : ℚ
  subBatchData : Option Threads × ℚ
deriving DecidableEq

/-- Embedding of the start-of-cycle update in `multiServerHSb` (lines
567-575): `subShotgunMaxRam` is reassigned from the destructuring every
cycle; when the newly computed sub-shotgun target differs from the stored
one, the stored target is replaced and the completion-instant list is
emptied.  Nothing else is reset. -/
def cycleReset (st : SubState) (newTarget : Option String) (newMaxRam : ℚ) :
    SubState :=
  if newTarget ≠ st.subShotgunTarget then
    { st with subShotgunTarget := newTarget, subShotgunBatchExecTimes := [],
              subShotgunMaxRam := newMaxRam }
  else { st with subShotgunMaxRam := newMaxRam }

/-- Environment of one pass of the per-target loop body of `multiServerHSb`:
the window tracker, settings, cost table, the current instant, the loop fuel
for `ensureValidExecTime`, the available HSB RAM, and the three batch
composers from the Batching module (not under src/, hence taken as opaque
inputs). -/
structure StepEnv where
  w : SecHoles
  s : Settings
  ct : CostTable
  now : ℚ
  fuel : ℕ
  globalAvail : ℚ
  fixBatchOf : TargetObs → ℚ → Threads
  optimalFixBatchOf : TargetObs → Threads
  bestMoneyBatch : ℚ → Threads

/-- Result of one per-target pass of the loop body: the updated record, the
updated sub-shotgun state, the dispatched fix batch (if any) and the
dispatched money batches (empty whenever the pass `continue`d before the
scheduling calls). -/
structure StepResult where
  data : TargetData
  sub : SubState
  fixDispatch : Option (Threads × ℚ)
  moneyDispatches : List (Threads × ℚ)
deriving DecidableEq

/-- Embedding of the body of the `for (const target of targetPriority)` loop
in `multiServerHSb` (src/HybridShotgunBatcher/HsbTargeter.js, lines 579-618):
validate the exec time (`continue` on `false`), drive the fix state machine
(`continue` on `false`), run the fatal `targetFixValid` guard, then schedule
either the sub shotgun (when this target is the stored sub-shotgun target) or
a full shotgun.  A `none` from the fuelled validation loop is treated as a
skip.  Thrown errors propagate as `Except.error`; no catch exists in the
source between this body and the process entry point. -/
def targetStep (env : StepEnv) (e : TargetEntry) (sub : SubState) :
    Except FixError StepResult :=
  match ensureValidExecTime env.w env.s e.obs.weakenTime env.now env.fuel e.data with
  | none => .ok ⟨e.data, sub, none, []⟩
  | some (false, d1) => .ok ⟨d1, sub, none, []⟩
  | some (true, d1) =>
    match ensureFixed env.s e.obs env.now (env.fixBatchOf e.obs env.globalAvail)
        (env.optimalFixBatchOf e.obs) d1 with
    | (false, d2, od) => .ok ⟨d2, sub, od, []⟩
    | (true, d2, od) =>
      match targetFixValid e.obs d2 with
      | .error err => .error err
      | .ok _ =>
        if sub.subShotgunTarget = some e.name then
          let r := scheduleSubShotgun env.w env.s env.ct env.now env.globalAvail d2
            sub.subShotgunBatchExecTimes sub.subShotgunMaxRam sub.subBatchData
            env.bestMoneyBatch
          .ok ⟨r.data, { sub with subShotgunBatchExecTimes := r.times,
                                  subBatchData := r.subBatchData }, od, r.dispatches⟩
        else
          let r := scheduleFullShotgun env.w env.s env.ct env.globalAvail d2
          .ok ⟨r.data, sub, od, r.dispatches⟩

/-- The per-cycle loop over the priority list, threading the loop-carried
sub-shotgun state.  An error thrown by any pass aborts the whole cycle — the
source has no try/catch anywhere in `multiServerHSb` or `main`. -/
def runCycle (env : StepEnv) : List TargetEntry → SubState → Except FixError SubState
  | [], sub => .ok sub
  | e :: rest, sub =>
    match targetStep env e sub with
    | .error err => .error err
    | .ok r => runCycle env rest r.sub

/-! ## Concrete sample data for evaluating the embedding -/

/-- Sample per-thread script RAM costs (weaken, grow, hack). -/
def cTable : CostTable := ⟨7/4, 7/4, 17/10⟩

/-- Sample environment for `fixSecurity`: `weakenAnalyze(1) = 1/20`. -/
def cSecEnv : SecEnv := ⟨1/20, cTable⟩

/-- Sample environment for `fixMoney` with a linear growth-count formula
`growthAnalyze m = 2 * (m - 1)` and no security impact from grow. -/
def cMoneyEnv : MoneyEnv := ⟨fun m => 2 * (m - 1), fun _ => 0, 1, cTable⟩

/-- Sample Settings: `averageBatchASec = 10`, `execMargin = 50`,
`maxShotgunShells = 1`, `minDeltaBatchExec = 1`. -/
def cSettings : Settings := ⟨10, 50, 1, 1⟩

/-- Sample window tracker: one low-sec hole covering all instants before 10,
so the next window end of any instant is `max t 10`, and the next hole starts
far in the future (`t + 100`). -/
def cHoles : SecHoles := ⟨fun t => decide (t < 10), fun t => max t 10, fun t => t + 100⟩

/-- Sample server out of spec by 5 security points. -/
def cSecSt : ServerState := ⟨10, 5, 0, 1000000⟩

/-- Sample server at 10/23 of its maximum money (growth multiplier 2.3, so the
real-valued optimal grow count under `cMoneyEnv` is 2.6). -/
def cMonSt : ServerState := ⟨5, 5, 10, 23⟩

/-- Sample server at 10/21 of its maximum money (growth multiplier 2.1, so the
real-valued optimal grow count under `cMoneyEnv` is 2.2). -/
def cMonStW : ServerState := ⟨5, 5, 10, 21⟩

/-- Sample observed target state: security 5 above minimum, money 10 below
maximum (not at baseline), rooted, low required level. -/
def cObsUnfixed : TargetObs := ⟨10, 5, 90, 100, true, 1, 5, 40, 3⟩

/-- Sample observed target state at baseline security/money but whose stored
baselines (in `cDataFixed`) disagree with the observation. -/
def cObsDrift : TargetObs := ⟨7, 7, 20, 20, true, 1, 5, 40, 3⟩

/-- Sample record with a stale numeric fix deadline 5 and exec time 100. -/
def cDataStale : TargetData := ⟨100, .pendingAt 5, ⟨0, 0, 1⟩, 9, 20⟩

/-- Sample record with numeric fix deadline 0 and exec time 100. -/
def cDataPend : TargetData := ⟨100, .pendingAt 0, ⟨0, 0, 1⟩, 9, 20⟩

/-- Sample record in the `"fixed"` state with baselines security 5, money 20,
exec time 0. -/
def cDataFixed : TargetData := ⟨0, .fixed, ⟨0, 0, 1⟩, 5, 20⟩

/-- `cDataFixed` after exec-time validation at instant 0 under `cHoles` and
`cSettings` (the validated exec time is `max 0 10 + 1 + 5 = 16`). -/
def cDataFixed16 : TargetData := ⟨16, .fixed, ⟨0, 0, 1⟩, 5, 20⟩

/-- Sample best-for-budget fix batch, distinct from `cOptBatch`. -/
def cFixBatch : Threads := ⟨0, 0, 3⟩

/-- Sample optimal fix batch. -/
def cOptBatch : Threads := ⟨0, 0, 7⟩

/-- Sample loop-body environment: instant 0, fuel 2, 1000 units of available
capacity, constant batch composers. -/
def cStepEnv : StepEnv :=
  ⟨cHoles, cSettings, cTable, 0, 2, 1000, fun _ _ => ⟨0, 0, 3⟩, fun _ => ⟨0, 0, 7⟩,
    fun _ => ⟨0, 0, 0⟩⟩

/-- Sample entry whose stored baselines disagree with its observed state. -/
def cEntryDrift : TargetEntry := ⟨"a", cObsDrift, cDataFixed⟩

/-- Sample empty sub-shotgun state. -/
def cSubEmpty : SubState := ⟨none, [], 0, (none, 0)⟩

/-- Sample sub-shotgun state mid-cycle for target `"a"`: two scheduled
completion instants and a live partial remainder batch. -/
def cSubLive : SubState := ⟨some "a", [1, 2], 50, (some ⟨1, 2, 3⟩, 42)⟩

/-- Sample high-yield target (yield rate 5, footprint 175 under `cSettings`
and `cTable`): retained by the walk since its required level 1 is below the
caller's. -/
def cEntryA : TargetEntry :=
  ⟨"a", ⟨5, 5, 100, 100, true, 1, 5, 40, 875⟩, ⟨0, FixedStatus.fixed, ⟨0, 0, 100⟩, 5, 100⟩⟩

/-- Sample lower-yield target (yield rate 3, footprint 700 under `cSettings`
and `cTable`). -/
def cEntryB : TargetEntry :=
  ⟨"b", ⟨5, 5, 100, 100, true, 2, 5, 40, 2100⟩, ⟨0, FixedStatus.fixed, ⟨0, 0, 400⟩, 5, 100⟩⟩

/-- Sample target without root access (`ensureCanHack` returns `false` on it,
so the source's walk retains it). -/
def cEntryNoRoot : TargetEntry :=
  ⟨"nr", ⟨5, 5, 100, 100, false, 1, 5, 40, 875⟩, ⟨0, FixedStatus.fixed, ⟨0, 0, 100⟩, 5, 100⟩⟩

/-- Sample rooted, nonzero-money target whose required hacking level equals
the caller's level 50 (`ensureCanHack` returns `true` on it, so the source's
walk skips it). -/
def cEntryLevel : TargetEntry :=
  ⟨"lv", ⟨5, 5, 100, 100, true, 50, 5, 40, 875⟩, ⟨0, FixedStatus.fixed, ⟨0, 0, 100⟩, 5, 100⟩⟩

/-- Sample record with numeric fix deadline 0 and exec time 0. -/
def cDataPend0 : TargetData := ⟨0, .pendingAt 0, ⟨0, 0, 1⟩, 9, 20⟩

/-- Sample entry pairing `cObsUnfixed` with `cDataPend0`. -/
def cEntryPend : TargetEntry := ⟨"p", cObsUnfixed, cDataPend0⟩

/-- `cDataPend0` after exec-time validation at instant 0 under `cHoles` and
`cSettings` (validated exec time `max 0 10 + 1 + 5 = 16`). -/
def cDataPend16 : TargetData := ⟨16, .pendingAt 0, ⟨0, 0, 1⟩, 9, 20⟩

/-- `cDataPend16` after `ensureFixed` dispatches a fix batch at instant 0:
exec time advanced to 17, baselines refreshed from `cObsUnfixed`, fix-status
untouched. -/
def cDataPend17 : TargetData := ⟨17, .pendingAt 0, ⟨0, 0, 1⟩, 10, 90⟩

/-! ## Helper lemmas -/

theorem estimateX_cost_le (f : ℚ → ℚ) (budget : ℚ) :
    ∀ (n : ℕ) (lo hi : ℚ), f lo ≤ budget → f (estimateX f budget lo hi n) ≤ budget := by
  intro n
  induction n with
  | zero => intro lo hi h; simpa [estimateX] using h
  | succ n ih =>
    intro lo hi h
    simp only [estimateX]
    split_ifs with hm
    · exact ih _ _ hm
    · exact ih _ _ h

theorem priorityWalk_eq_specWalk (s : Settings) (ct : CostTable) (hl : ℚ) :
    ∀ (l : List TargetEntry) (aRam : ℚ),
      priorityWalk s ct hl aRam l
        = specWalk s ct aRam (l.filter (fun e => ! ensureCanHack hl e.obs)) := by
  intro l
  induction l with
  | nil => intro aRam; rfl
  | cons e es ih =>
    intro aRam
    cases h : ensureCanHack hl e.obs with
    | true => simp [priorityWalk, h, ih, List.filter_cons]
    | false =>
      simp only [priorityWalk, h, Bool.false_eq_true, if_false, List.filter_cons,
        Bool.not_false, if_true]
      simp only [specWalk]
      split_ifs with hov
      · rfl
      · simp [ih]

theorem specWalk_none_ceiling (s : Settings) (ct : CostTable) :
    ∀ (l : List TargetEntry) (aRam : ℚ),
      (specWalk s ct aRam l).2.1 = none → (specWalk s ct aRam l).2.2 = 0 := by
  intro l
  induction l with
  | nil => intro aRam _; rfl
  | cons e es ih =>
    intro aRam
    simp only [specWalk]
    split_ifs with hov
    · intro hc; simp at hc
    · intro hc; exact ih _ hc

/-! ## Claim theorems -/

/-- C2: `getTargetPriority` walks the targets in descending
money-per-ms-per-ram order with a running budget starting at the available
capacity; it equals the claim's walk over the retained (non-skipped) sorted
targets, in which the first retained target whose maximum concurrent-batch
footprint exceeds the remaining budget is returned as the overflow target
with exactly the budget remaining at that point, every earlier retained
target has its full footprint subtracted, every later target is excluded,
and when no target overflows the overflow target is `null` with ceiling 0. -/
theorem getTargetPriority_spec (s : Settings) (ct : CostTable) (hl aRam : ℚ)
    (entries : List TargetEntry) :
    getTargetPriority s ct hl aRam entries
      = specWalk s ct aRam (retainedTargets ct hl entries)
    ∧ List.Sorted (yieldGE ct) (sortByYield ct entries)
    ∧ ((getTargetPriority s ct hl aRam entries).2.1 = none →
        (getTargetPriority s ct hl aRam entries).2.2 = 0) := by
  have heq : getTargetPriority s ct hl aRam entries
      = specWalk s ct aRam (retainedTargets ct hl entries) :=
    priorityWalk_eq_specWalk s ct hl (sortByYield ct entries) aRam
  refine ⟨heq, ?_, ?_⟩
  · haveI : IsTotal TargetEntry (yieldGE ct) :=
      ⟨fun a b => le_total (yieldRate ct b) (yieldRate ct a)⟩
    haveI : IsTrans TargetEntry (yieldGE ct) :=
      ⟨fun _ _ _ h1 h2 => le_trans h2 h1⟩
    exact List.sorted_insertionSort _ _
  · rw [heq]
    exact specWalk_none_ceiling s ct _ aRam

set_option maxRecDepth 4000 in
/-- Witness for C2: two retained targets with yield rates 5 and 3 and
footprints 175 and 700 under budget 800 — the first is fully funded, the
second overflows and becomes the sub-shotgun target with exactly the
remaining 625 units. -/
theorem getTargetPriority_spec_witness :
    getTargetPriority cSettings cTable 50 800 [cEntryA, cEntryB]
      = (["a", "b"], (some "b", 625))
    ∧ (getTargetPriority cSettings cTable 50 800 [cEntryA, cEntryB]
        = specWalk cSettings cTable 800 (retainedTargets cTable 50 [cEntryA, cEntryB])
      ∧ List.Sorted (yieldGE cTable) (sortByYield cTable [cEntryA, cEntryB])
      ∧ ((getTargetPriority cSettings cTable 50 800 [cEntryA, cEntryB]).2.1 = none →
          (getTargetPriority cSettings cTable 50 800 [cEntryA, cEntryB]).2.2 = 0)) :=
  ⟨by with_unfolding_all decide,
   getTargetPriority_spec cSettings cTable 50 800 [cEntryA, cEntryB]⟩

/-- C6: for every target and resource ceiling C ≥ 0, the batch composed under
ceiling C costs at most C; in particular the weaken count `fixSecurity`
dispatches is the minimum of the optimal count and
`floor(C / weakenRam)`, so its cost never exceeds the available RAM, and the
money-fix batch found by the bounded search stays within its ceiling whenever
the search's lower end is affordable. -/
theorem fix_batch_cost_within_budget
    (senv : SecEnv) (st : ServerState) (C : ℚ)
    (menv : MoneyEnv) (fuel : ℕ) (stM : ServerState) (CM : ℚ)
    (_hC0 : 0 ≤ C) (hCne : C ≠ 0)
    (hfrom : st.security - st.minSecurity ≠ 0)
    (hwr : 0 < senv.ct.weakenRam)
    (hCM : CM ≠ 0) (hm : stM.money ≠ stM.maxMoney)
    (hlo : ramUsage menv.ct (growThreadsFor menv 1) ≤ CM) :
    (fixSecurity senv st C).2
      = some ⟨0, 0, min ⌈(st.security - st.minSecurity) / senv.weakenAnalyze1⌉
          ⌊C / senv.ct.weakenRam⌋⟩
    ∧ dispatchCost senv.ct (fixSecurity senv st C).2 ≤ C
    ∧ dispatchCost menv.ct (fixMoney menv fuel stM CM).2 ≤ CM := by
  have hsec : (fixSecurity senv st C).2
      = some ⟨0, 0, min ⌈(st.security - st.minSecurity) / senv.weakenAnalyze1⌉
          ⌊C / senv.ct.weakenRam⌋⟩ := by
    simp only [fixSecurity, if_neg hCne, if_pos hfrom]
    split_ifs <;> rfl
  have hcost : dispatchCost senv.ct (fixSecurity senv st C).2 ≤ C := by
    rw [hsec]
    simp only [dispatchCost, ramUsage, Int.cast_zero, zero_mul, zero_add]
    have h1 : ((min ⌈(st.security - st.minSecurity) / senv.weakenAnalyze1⌉
        ⌊C / senv.ct.weakenRam⌋ : ℤ) : ℚ) ≤ ((⌊C / senv.ct.weakenRam⌋ : ℤ) : ℚ) := by
      exact_mod_cast min_le_right _ _
    have h2 : ((⌊C / senv.ct.weakenRam⌋ : ℤ) : ℚ) ≤ C / senv.ct.weakenRam :=
      Int.floor_le _
    calc ((min ⌈(st.security - st.minSecurity) / senv.weakenAnalyze1⌉
          ⌊C / senv.ct.weakenRam⌋ : ℤ) : ℚ) * senv.ct.weakenRam
        ≤ (C / senv.ct.weakenRam) * senv.ct.weakenRam := by
          exact mul_le_mul_of_nonneg_right (le_trans h1 h2) hwr.le
      _ = C := div_mul_cancel₀ C hwr.ne'
  have hmon : dispatchCost menv.ct (fixMoney menv fuel stM CM).2 ≤ CM := by
    have hdisp : (fixMoney menv fuel stM CM).2
        = some (growThreadsFor menv (estimateX
            (fun y => ramUsage menv.ct (growThreadsFor menv y)) CM 1
            (1 / (stM.money / stM.maxMoney)) fuel)) := by
      simp only [fixMoney, if_neg hCM, if_pos hm]
      split_ifs <;> rfl
    rw [hdisp]
    exact estimateX_cost_le (fun y => ramUsage menv.ct (growThreadsFor menv y)) CM
      fuel 1 (1 / (stM.money / stM.maxMoney)) hlo
  exact ⟨hsec, hcost, hmon⟩

/-- Witness for C6: with `weakenAnalyze(1) = 1/20`, a 5-point security
deficit (optimal count 100) and ceiling 35, the dispatched count is
`min 100 (floor (35 / (7/4))) = 20` and its cost 35 stays within the ceiling;
the money fix under ceiling 1000 also stays within budget. -/
theorem fix_batch_cost_within_budget_witness :
    (fixSecurity cSecEnv cSecSt 35).2 = some ⟨0, 0, 20⟩
    ∧ ((fixSecurity cSecEnv cSecSt 35).2
        = some ⟨0, 0, min ⌈(cSecSt.security - cSecSt.minSecurity) / cSecEnv.weakenAnalyze1⌉
            ⌊(35 : ℚ) / cSecEnv.ct.weakenRam⌋⟩
      ∧ dispatchCost cSecEnv.ct (fixSecurity cSecEnv cSecSt 35).2 ≤ 35
      ∧ dispatchCost cMoneyEnv.ct (fixMoney cMoneyEnv 4 cMonSt 1000).2 ≤ 1000) :=
  ⟨by with_unfolding_all decide,
   fix_batch_cost_within_budget cSecEnv cSecSt 35 cMoneyEnv 4 cMonSt 1000
     (by norm_num) (by norm_num) (by with_unfolding_all decide)
     (by with_unfolding_all decide) (by norm_num) (by with_unfolding_all decide)
     (by with_unfolding_all decide)⟩

/-- C7 counterexample: a server at 10/23 of its maximum money under a linear
growth formula has real-valued optimal grow count 2.6; the bounded search
discovers 3 grow threads — within 0.5 of the optimum (and equal to its
round-up) — yet `fixMoney` reports NOT fixed, because its check is
`growthAnalyze(maxMul) + 1 - threads.grow < 0.5`, which demands the count to
exceed the optimum by more than 0.5. -/
theorem fixMoney_tolerance_counterexample :
    (fixMoney cMoneyEnv 4 cMonSt 1000).1 = false
    ∧ (fixMoney cMoneyEnv 4 cMonSt 1000).2 = some ⟨0, 3, 0⟩
    ∧ |(3 : ℚ) - cMoneyEnv.growthAnalyze (1 / (cMonSt.money / cMonSt.maxMoney))| < 1 / 2
    ∧ (⌈cMoneyEnv.growthAnalyze (1 / (cMonSt.money / cMonSt.maxMoney))⌉ : ℤ) = 3 := by
  with_unfolding_all decide

/-- C7 amended: `fixMoney` (on the dispatch path: nonzero ceiling, money not
at maximum) reports the target fully fixed exactly when the discovered grow
count exceeds the real-valued theoretical optimum
`growthAnalyze(maxMul)` by more than 0.5 (the source computes
`delta = growthAnalyze(maxMul) + 1 - threads.grow` and tests `delta < 0.5`);
otherwise it reports not fixed after dispatching the discovered batch. -/
theorem fixMoney_fixed_iff (menv : MoneyEnv) (fuel : ℕ) (st : ServerState) (C : ℚ)
    (hC : C ≠ 0) (hm : st.money ≠ st.maxMoney) :
    ((fixMoney menv fuel st C).1 = true
      ↔ menv.growthAnalyze (1 / (st.money / st.maxMoney)) + 1 / 2
          < ((growThreadsFor menv (estimateX
              (fun y => ramUsage menv.ct (growThreadsFor menv y)) C 1
              (1 / (st.money / st.maxMoney)) fuel)).grow : ℚ))
    ∧ (fixMoney menv fuel st C).2
        = some (growThreadsFor menv (estimateX
            (fun y => ramUsage menv.ct (growThreadsFor menv y)) C 1
            (1 / (st.money / st.maxMoney)) fuel)) := by
  simp only [fixMoney, if_neg hC, if_pos hm]
  split_ifs with h
  · exact ⟨iff_of_true rfl (by linarith), rfl⟩
  · exact ⟨iff_of_false (by simp) (by linarith), rfl⟩

/-- Witness for C7 amended: a server at 10/21 of maximum (optimum 2.2) where
the search discovers 3 grow threads, exceeding the optimum by 0.8 > 0.5, so
`fixMoney` reports fixed. -/
theorem fixMoney_fixed_iff_witness :
    (fixMoney cMoneyEnv 4 cMonStW 1000).1 = true
    ∧ (((fixMoney cMoneyEnv 4 cMonStW 1000).1 = true
        ↔ cMoneyEnv.growthAnalyze (1 / (cMonStW.money / cMonStW.maxMoney)) + 1 / 2
            < ((growThreadsFor cMoneyEnv (estimateX
                (fun y => ramUsage cMoneyEnv.ct (growThreadsFor cMoneyEnv y)) 1000 1
                (1 / (cMonStW.money / cMonStW.maxMoney)) 4)).grow : ℚ))
      ∧ (fixMoney cMoneyEnv 4 cMonStW 1000).2
          = some (growThreadsFor cMoneyEnv (estimateX
              (fun y => ramUsage cMoneyEnv.ct (growThreadsFor cMoneyEnv y)) 1000 1
              (1 / (cMonStW.money / cMonStW.maxMoney)) 4))) :=
  ⟨by with_unfolding_all decide,
   fixMoney_fixed_iff cMoneyEnv 4 cMonStW 1000 (by norm_num)
     (by with_unfolding_all decide)⟩

/-- C8: when the optimal weaken count is not affordable, `fixSecurity`
dispatches the affordable floor-sized batch and returns `false`, and the
`fixServer` loop restarts without attempting the money fix in that cycle. -/
theorem fixSecurity_infeasible_retries
    (senv : SecEnv) (menv : MoneyEnv) (fuel : ℕ) (st : ServerState) (ram1 ram2 : ℚ)
    (h1 : ram1 ≠ 0) (h2 : st.security - st.minSecurity ≠ 0)
    (h3 : ⌊ram1 / senv.ct.weakenRam⌋
        < ⌈(st.security - st.minSecurity) / senv.weakenAnalyze1⌉) :
    fixSecurity senv st ram1 = (false, some ⟨0, 0, ⌊ram1 / senv.ct.weakenRam⌋⟩)
    ∧ fixServerStep senv menv fuel st ram1 ram2 = (.retryAfterSecurity, false) := by
  have hfs : fixSecurity senv st ram1
      = (false, some ⟨0, 0, ⌊ram1 / senv.ct.weakenRam⌋⟩) := by
    simp only [fixSecurity, if_neg h1, if_pos h2, if_neg (not_le.mpr h3)]
    rw [min_eq_right h3.le]
  refine ⟨hfs, ?_⟩
  simp [fixServerStep, hfs]

/-- Witness for C8: deficit 5 with `weakenAnalyze(1) = 1/20` needs 100 weaken
threads; a 7-unit ceiling affords only `floor (7 / (7/4)) = 4`, so the batch
is floor-sized, `fixSecurity` reports `false`, and the loop iteration retries
security without invoking the money fix. -/
theorem fixSecurity_infeasible_retries_witness :
    fixSecurity cSecEnv cSecSt 7 = (false, some ⟨0, 0, 4⟩)
    ∧ (fixSecurity cSecEnv cSecSt 7
        = (false, some ⟨0, 0, ⌊(7 : ℚ) / cSecEnv.ct.weakenRam⌋⟩)
      ∧ fixServerStep cSecEnv cMoneyEnv 4 cSecSt 7 9 = (.retryAfterSecurity, false)) :=
  ⟨by with_unfolding_all decide,
   fixSecurity_infeasible_retries cSecEnv cMoneyEnv 4 cSecSt 7 9 (by norm_num)
     (by with_unfolding_all decide) (by with_unfolding_all decide)⟩

/-- C1: evaluation of `ensureFixed` at a stale numeric deadline (5 ≤ now = 10)
with a non-optimal fix batch: the source's `fixedStatus == execTime`
comparison is a no-op, so after dispatching the fix batch at exec time 100 the
fix-status is still the old deadline 5 — not the batch's scheduled execution
time 100 that the record's own state-enum comment ("a number (the exec time
of the fix batch)") calls for. -/
theorem ensureFixed_stale_deadline :
    (ensureFixed cSettings cObsUnfixed 10 cFixBatch cOptBatch cDataStale).1 = false
    ∧ (ensureFixed cSettings cObsUnfixed 10 cFixBatch cOptBatch cDataStale).2.2
        = some (cFixBatch, 100)
    ∧ (ensureFixed cSettings cObsUnfixed 10 cFixBatch cOptBatch cDataStale).2.1.fixedStatus
        = .pendingAt 5
    ∧ cFixBatch ≠ cOptBatch
    ∧ cDataStale.fixedStatus = .pendingAt 5 ∧ (5 : ℚ) ≤ 10
    ∧ cDataStale.execTime = 100
    ∧ FixedStatus.pendingAt 5 ≠ FixedStatus.pendingAt 100 := by
  with_unfolding_all decide

/-- C3: evaluation of the eligibility filter on concrete targets.  A target
without root access is retained in the priority list (its `ensureCanHack`
returns `false` and the walk skips only on `true`), while a rooted,
nonzero-money target whose required level equals the caller's level — an
eligible target — is skipped: the opposite of the documented/claimed
behaviour in both cases. -/
theorem eligibility_filter_inverted :
    ensureCanHack 50 cEntryNoRoot.obs = false
    ∧ cEntryNoRoot.obs.hasRoot = false
    ∧ (getTargetPriority cSettings cTable 50 1000 [cEntryNoRoot]).1 = ["nr"]
    ∧ ensureCanHack 50 cEntryLevel.obs = true
    ∧ cEntryLevel.obs.hasRoot = true
    ∧ cEntryLevel.obs.maxMoney ≠ 0
    ∧ cEntryLevel.obs.requiredHackingLevel ≤ 50
    ∧ (getTargetPriority cSettings cTable 50 1000 [cEntryLevel]).1 = [] := by
  with_unfolding_all decide

/-- C9 counterexample: when the overflow target changes from `"a"` to `"b"`,
the cycle-start reset empties the completion-instant list but leaves the
partial remainder batch `(some batch, 42)` in place — it is not cleared to
the empty `(null, 0)` state the claim describes. -/
theorem cycleReset_keeps_remainder :
    (cycleReset cSubLive (some "b") 60).subBatchData = (some ⟨1, 2, 3⟩, 42)
    ∧ (cycleReset cSubLive (some "b") 60).subShotgunBatchExecTimes = []
    ∧ (cycleReset cSubLive (some "b") 60).subShotgunTarget = some "b"
    ∧ some "b" ≠ cSubLive.subShotgunTarget
    ∧ cSubLive.subBatchData ≠ ((none : Option Threads), (0 : ℚ)) := by
  with_unfolding_all decide

/-- C9 amended: when the overflow target changes between cycles, the stored
target is replaced, the completion-instant list is emptied and the overflow
ceiling is reassigned, but the partial remainder batch is left unchanged (not
cleared). -/
theorem cycleReset_spec (st : SubState) (nt : Option String) (mr : ℚ)
    (h : nt ≠ st.subShotgunTarget) :
    cycleReset st nt mr = ⟨nt, [], mr, st.subBatchData⟩ := by
  simp [cycleReset, h]

/-- Witness for C9 amended: changing the overflow target from `"a"` to `"b"`
empties the list, updates the target and ceiling, and keeps the remainder
batch. -/
theorem cycleReset_spec_witness :
    (some "b" : Option String) ≠ cSubLive.subShotgunTarget
    ∧ cycleReset cSubLive (some "b") 60 = ⟨some "b", [], 60, cSubLive.subBatchData⟩ :=
  ⟨by with_unfolding_all decide,
   cycleReset_spec cSubLive (some "b") 60 (by with_unfolding_all decide)⟩

theorem ensureFixed_dispatch_eq
    (s : Settings) (obs : TargetObs) (now tF : ℚ) (fb ob : Threads) (d : TargetData)
    (hd : d.fixedStatus = .pendingAt tF) (ht : ¬ tF > now)
    (hnf : targetFixed obs = false) :
    ensureFixed s obs now fb ob d
      = (false,
         ⟨d.execTime + s.minDeltaBatchExec,
          if fb = ob then .fixing else d.fixedStatus,
          d.batch, obs.security, obs.money⟩,
         some (fb, d.execTime)) := by
  have h1 : ¬ d.fixedStatus = .fixed := by rw [hd]; simp
  have h2 : ¬ d.fixedStatus = .fixing := by rw [hd]; simp
  have h3 : ¬ d.fixedStatus.deadline > now := by
    rw [hd]; exact ht
  simp only [ensureFixed, if_neg h1, hnf, Bool.false_eq_true, if_false, if_neg h2,
    if_neg h3]
  split_ifs with hb
  · rfl
  · rfl

/-- C5: `targetFixValid` throws exactly when the observed security or money
deviates from the stored baseline in either direction, with the stored
baseline and the observed value carried in the error message; the thrown
error propagates uncaught through the per-target loop body and the cycle
loop of `multiServerHSb`, aborting the cycle. -/
theorem targetFixValid_fatal
    (obsA : TargetObs) (dA : TargetData)
    (env : StepEnv) (e : TargetEntry) (sub : SubState) (rest : List TargetEntry)
    (d1 d2 : TargetData) (od : Option (Threads × ℚ)) (err : FixError)
    (hv : ensureValidExecTime env.w env.s e.obs.weakenTime env.now env.fuel e.data
        = some (true, d1))
    (hf : ensureFixed env.s e.obs env.now (env.fixBatchOf e.obs env.globalAvail)
        (env.optimalFixBatchOf e.obs) d1 = (true, d2, od))
    (he : targetFixValid e.obs d2 = .error err) :
    exceptFixErrorData (targetFixValid obsA dA) = claimFixErrorData obsA dA
    ∧ targetStep env e sub = .error err
    ∧ runCycle env (e :: rest) sub = .error err := by
  have hchar : exceptFixErrorData (targetFixValid obsA dA) = claimFixErrorData obsA dA := by
    simp only [targetFixValid, claimFixErrorData]
    split_ifs <;> simp_all [exceptFixErrorData, fixErrorData] <;>
      first
        | linarith
        | (rename_i hne; exact absurd (le_antisymm (by assumption) (by assumption)) hne)
  have hstep : targetStep env e sub = .error err := by
    simp only [targetStep, hv, hf, he]
  exact ⟨hchar, hstep, by simp only [runCycle, hstep]⟩

/-- Witness for C5: a target whose stored baseline security 5 disagrees with
the observed security 7 passes the timing and fix checks, and the cycle over
it aborts with the security-above-baseline error carrying (5, 7). -/
theorem targetFixValid_fatal_witness :
    ensureValidExecTime cStepEnv.w cStepEnv.s cEntryDrift.obs.weakenTime cStepEnv.now
        cStepEnv.fuel cEntryDrift.data = some (true, cDataFixed16)
    ∧ (exceptFixErrorData (targetFixValid cObsDrift cDataFixed16)
          = claimFixErrorData cObsDrift cDataFixed16
      ∧ targetStep cStepEnv cEntryDrift cSubEmpty = .error (.securityAboveBase 5 7)
      ∧ runCycle cStepEnv [cEntryDrift] cSubEmpty = .error (.securityAboveBase 5 7)) :=
  ⟨by with_unfolding_all decide,
   targetFixValid_fatal cObsDrift cDataFixed16 cStepEnv cEntryDrift cSubEmpty []
     cDataFixed16 cDataFixed16 none (.securityAboveBase 5 7)
     (by with_unfolding_all decide) (by with_unfolding_all decide)
     (by with_unfolding_all decide)⟩

/-- C10: whenever `ensureFixed` dispatches a fix batch (numeric deadline at
or before now, target not at baseline), it refreshes the stored baseline
security and money to the observed values, advances the exec time by
`minDeltaBatchExec`, and returns `false`; consequently the per-target loop
pass records only the fix dispatch and schedules no money batches for that
target in the same tick. -/
theorem ensureFixed_dispatch_refreshes
    (s : Settings) (obs : TargetObs) (now tF : ℚ) (fb ob : Threads) (d : TargetData)
    (env : StepEnv) (e : TargetEntry) (sub : SubState) (d1 : TargetData) (t1 : ℚ)
    (hd : d.fixedStatus = .pendingAt tF) (ht : ¬ tF > now)
    (hnf : targetFixed obs = false)
    (hv : ensureValidExecTime env.w env.s e.obs.weakenTime env.now env.fuel e.data
        = some (true, d1))
    (hd1 : d1.fixedStatus = .pendingAt t1) (ht1 : ¬ t1 > env.now)
    (hnf1 : targetFixed e.obs = false) :
    (ensureFixed s obs now fb ob d).1 = false
    ∧ (ensureFixed s obs now fb ob d).2.2 = some (fb, d.execTime)
    ∧ (ensureFixed s obs now fb ob d).2.1.baseSecurity = obs.security
    ∧ (ensureFixed s obs now fb ob d).2.1.baseMoney = obs.money
    ∧ (ensureFixed s obs now fb ob d).2.1.execTime = d.execTime + s.minDeltaBatchExec
    ∧ targetStep env e sub
        = .ok ⟨(ensureFixed env.s e.obs env.now (env.fixBatchOf e.obs env.globalAvail)
              (env.optimalFixBatchOf e.obs) d1).2.1, sub,
            some (env.fixBatchOf e.obs env.globalAvail, d1.execTime), []⟩ := by
  have h := ensureFixed_dispatch_eq s obs now tF fb ob d hd ht hnf
  have h1 := ensureFixed_dispatch_eq env.s e.obs env.now t1
    (env.fixBatchOf e.obs env.globalAvail) (env.optimalFixBatchOf e.obs) d1 hd1 ht1 hnf1
  refine ⟨by rw [h], by rw [h], by rw [h], by rw [h], by rw [h], ?_⟩
  simp only [targetStep, hv, h1]

/-- Witness for C10: a target with deadline 0 at instant 0, validated exec
time 16, dispatches its fix batch at 16, refreshes baselines to the observed
(10, 90), advances its exec time to 17, and the loop pass schedules no money
batches for it. -/
theorem ensureFixed_dispatch_refreshes_witness :
    targetStep cStepEnv cEntryPend cSubEmpty
      = .ok ⟨cDataPend17, cSubEmpty, some (⟨0, 0, 3⟩, 16), []⟩
    ∧ ((ensureFixed cSettings cObsUnfixed 10 cFixBatch cOptBatch cDataStale).1 = false
      ∧ (ensureFixed cSettings cObsUnfixed 10 cFixBatch cOptBatch cDataStale).2.2
          = some (cFixBatch, cDataStale.execTime)
      ∧ (ensureFixed cSettings cObsUnfixed 10 cFixBatch cOptBatch cDataStale).2.1.baseSecurity
          = cObsUnfixed.security
      ∧ (ensureFixed cSettings cObsUnfixed 10 cFixBatch cOptBatch cDataStale).2.1.baseMoney
          = cObsUnfixed.money
      ∧ (ensureFixed cSettings cObsUnfixed 10 cFixBatch cOptBatch cDataStale).2.1.execTime
          = cDataStale.execTime + cSettings.minDeltaBatchExec
      ∧ targetStep cStepEnv cEntryPend cSubEmpty
          = .ok ⟨(ensureFixed cStepEnv.s cEntryPend.obs cStepEnv.now
                (cStepEnv.fixBatchOf cEntryPend.obs cStepEnv.globalAvail)
                (cStepEnv.optimalFixBatchOf cEntryPend.obs) cDataPend16).2.1, cSubEmpty,
              some (cStepEnv.fixBatchOf cEntryPend.obs cStepEnv.globalAvail,
                cDataPend16.execTime), []⟩) :=
  ⟨by with_unfolding_all decide,
   ensureFixed_dispatch_refreshes cSettings cObsUnfixed 10 5 cFixBatch cOptBatch cDataStale
     cStepEnv cEntryPend cSubEmpty cDataPend16 0
     (by with_unfolding_all decide) (by norm_num) (by with_unfolding_all decide)
     (by with_unfolding_all decide) (by with_unfolding_all decide)
     (by with_unfolding_all decide) (by with_unfolding_all decide)⟩

theorem validLoop_le (w : SecHoles) (s : Settings) (wt now : ℚ)
    (hge : ∀ u, u ≤ w.getNextLowSecEnd u) (hδ : 0 ≤ s.minDeltaBatchExec) :
    ∀ (fuel : ℕ) (t : ℚ) (b : Bool) (r : ℚ),
      validLoop w s wt now fuel t = some (b, r) → t ≤ r := by
  intro fuel
  induction fuel with
  | zero => intro t b r h; simp [validLoop] at h
  | succ n ih =>
    intro t b r h
    simp only [validLoop] at h
    split_ifs at h with h1 h2 hmar
    · exact le_trans h1.le (ih _ _ _ h)
    · have hrec := ih _ _ _ h
      have hup := hge t
      linarith
    · simp only [Option.some.injEq, Prod.mk.injEq] at h
      exact le_of_eq h.2
    · simp only [Option.some.injEq, Prod.mk.injEq] at h
      exact le_of_eq h.2

theorem validLoop_exit (w : SecHoles) (s : Settings) (wt now : ℚ) :
    ∀ (fuel : ℕ) (t : ℚ) (b : Bool) (r : ℚ),
      validLoop w s wt now fuel t = some (b, r) →
      w.getNextLowSecEnd now + s.minDeltaBatchExec + wt ≤ r
      ∧ w.inLowSecHole r = false
      ∧ w.inLowSecHole (r - s.minDeltaBatchExec) = false
      ∧ ¬ w.getNextSecHole (r - s.minDeltaBatchExec) < r := by
  intro fuel
  induction fuel with
  | zero => intro t b r h; simp [validLoop] at h
  | succ n ih =>
    intro t b r h
    simp only [validLoop] at h
    split_ifs at h with h1 h2 hmar
    · exact ih _ _ _ h
    · exact ih _ _ _ h
    · push_neg at h2
      obtain ⟨hA, hB, hC⟩ := h2
      simp only [Option.some.injEq, Prod.mk.injEq] at h
      obtain ⟨hb, ht⟩ := h
      subst ht
      exact ⟨not_lt.mp h1, by simpa using hA, by simpa using hB, not_lt.mpr hC⟩
    · push_neg at h2
      obtain ⟨hA, hB, hC⟩ := h2
      simp only [Option.some.injEq, Prod.mk.injEq] at h
      obtain ⟨hb, ht⟩ := h
      subst ht
      exact ⟨not_lt.mp h1, by simpa using hA, by simpa using hB, not_lt.mpr hC⟩

theorem ensureValidExecTime_le (w : SecHoles) (s : Settings) (wt now : ℚ) (fuel : ℕ)
    (d : TargetData) (b : Bool) (dv : TargetData)
    (hge : ∀ u, u ≤ w.getNextLowSecEnd u) (hδ : 0 ≤ s.minDeltaBatchExec)
    (h : ensureValidExecTime w s wt now fuel d = some (b, dv)) :
    d.execTime ≤ dv.execTime := by
  simp only [ensureValidExecTime] at h
  split_ifs at h with h0
  · simp only [Option.some.injEq, Prod.mk.injEq] at h
    exact le_of_eq (congrArg TargetData.execTime h.2)
  · rcases Option.map_eq_some'.mp h with ⟨⟨b0, r⟩, hm, hf⟩
    simp only [Prod.mk.injEq] at hf
    have hle := validLoop_le w s wt now hge hδ fuel d.execTime b0 r hm
    rw [← hf.2]
    simpa using hle

theorem ensureValidExecTime_exit (w : SecHoles) (s : Settings) (wt now : ℚ) (fuel : ℕ)
    (d : TargetData) (b : Bool) (dv : TargetData)
    (hhole : w.inLowSecHole now = true)
    (h : ensureValidExecTime w s wt now fuel d = some (b, dv)) :
    w.getNextLowSecEnd now + s.minDeltaBatchExec + wt ≤ dv.execTime
    ∧ w.inLowSecHole dv.execTime = false
    ∧ w.inLowSecHole (dv.execTime - s.minDeltaBatchExec) = false
    ∧ ¬ w.getNextSecHole (dv.execTime - s.minDeltaBatchExec) < dv.execTime := by
  simp only [ensureValidExecTime, hhole] at h
  rcases Option.map_eq_some'.mp h with ⟨⟨b0, r⟩, hm, hf⟩
  simp only [Prod.mk.injEq] at hf
  have hx := validLoop_exit w s wt now fuel d.execTime b0 r hm
  rw [← hf.2]
  simpa using hx

theorem ensureFixed_execTime_le (s : Settings) (obs : TargetObs) (now : ℚ)
    (fb ob : Threads) (d : TargetData) (hδ : 0 ≤ s.minDeltaBatchExec) :
    d.execTime ≤ (ensureFixed s obs now fb ob d).2.1.execTime := by
  simp only [ensureFixed]
  split_ifs <;> simp <;> linarith

theorem shotgunLoop_spec (s : Settings) (batch : Threads) :
    ∀ (n : ℕ) (t : ℚ) (times : List ℚ),
      (shotgunLoop s batch n t times).1 = t + (n : ℚ) * s.minDeltaBatchExec
      ∧ (shotgunLoop s batch n t times).2.2.length = n := by
  intro n
  induction n with
  | zero => intro t times; simp [shotgunLoop]
  | succ n ih =>
    intro t times
    constructor
    · simp only [shotgunLoop]
      rw [(ih (t + s.minDeltaBatchExec) (times ++ [t])).1]
      push_cast
      ring
    · simp only [shotgunLoop, List.length_cons,
        (ih (t + s.minDeltaBatchExec) (times ++ [t])).2]

theorem scheduleFullShotgun_execTime (w : SecHoles) (s : Settings) (ct : CostTable)
    (avail : ℚ) (d : TargetData) :
    (scheduleFullShotgun w s ct avail d).data.execTime
      = d.execTime + ((scheduleFullShotgun w s ct avail d).dispatches.length : ℚ)
          * s.minDeltaBatchExec := by
  simp only [scheduleFullShotgun]
  rw [(shotgunLoop_spec s d.batch _ d.execTime []).1,
    (shotgunLoop_spec s d.batch _ d.execTime []).2]

theorem scheduleSubShotgun_execTime (w : SecHoles) (s : Settings) (ct : CostTable)
    (now avail : ℚ) (d : TargetData) (times : List ℚ) (maxRam : ℚ)
    (sbd : Option Threads × ℚ) (bmb : ℚ → Threads) :
    (scheduleSubShotgun w s ct now avail d times maxRam sbd bmb).data.execTime
      = d.execTime
        + ((scheduleSubShotgun w s ct now avail d times maxRam sbd bmb).dispatches.length : ℚ)
          * s.minDeltaBatchExec := by
  simp only [scheduleSubShotgun]
  split_ifs with h1 h2
  · dsimp only
    simp only [List.length_append, List.length_cons, List.length_nil,
      (shotgunLoop_spec s d.batch _ d.execTime times).1,
      (shotgunLoop_spec s d.batch _ d.execTime times).2]
    push_cast
    ring
  · dsimp only
    rw [(shotgunLoop_spec s d.batch _ d.execTime times).1,
      (shotgunLoop_spec s d.batch _ d.execTime times).2]
  · dsimp only
    rw [(shotgunLoop_spec s d.batch _ d.execTime times).1,
      (shotgunLoop_spec s d.batch _ d.execTime times).2]

/-- C4: a target's stored next legal execution instant never decreases.
`ensureValidExecTime` only moves it forward — on success it is at least the
next window end plus the minimum batch gap plus the weaken duration, and
clear of any colliding low-sec hole — and every batch dispatch in
`ensureFixed`, `scheduleFullShotgun` and `scheduleSubShotgun` advances it by
exactly `minDeltaBatchExec` per dispatched batch. -/
theorem execTime_monotone
    (w : SecHoles) (s : Settings) (ct : CostTable) (wt now : ℚ) (fuel : ℕ)
    (d dv : TargetData) (bv : Bool)
    (obs : TargetObs) (fb ob : Threads) (dF dS dT : TargetData) (tF : ℚ)
    (avail maxRam : ℚ) (times : List ℚ) (sbd : Option Threads × ℚ) (bmb : ℚ → Threads)
    (hge : ∀ u, u ≤ w.getNextLowSecEnd u) (hδ : 0 ≤ s.minDeltaBatchExec)
    (hhole : w.inLowSecHole now = true)
    (hv : ensureValidExecTime w s wt now fuel d = some (bv, dv))
    (hdF : dF.fixedStatus = .pendingAt tF) (htF : ¬ tF > now)
    (hnf : targetFixed obs = false) :
    d.execTime ≤ dv.execTime
    ∧ w.getNextLowSecEnd now + s.minDeltaBatchExec + wt ≤ dv.execTime
    ∧ w.inLowSecHole dv.execTime = false
    ∧ w.inLowSecHole (dv.execTime - s.minDeltaBatchExec) = false
    ∧ ¬ w.getNextSecHole (dv.execTime - s.minDeltaBatchExec) < dv.execTime
    ∧ dS.execTime ≤ (ensureFixed s obs now fb ob dS).2.1.execTime
    ∧ (ensureFixed s obs now fb ob dF).2.1.execTime = dF.execTime + s.minDeltaBatchExec
    ∧ (scheduleFullShotgun w s ct avail dT).data.execTime
        = dT.execTime + ((scheduleFullShotgun w s ct avail dT).dispatches.length : ℚ)
            * s.minDeltaBatchExec
    ∧ dT.execTime ≤ (scheduleFullShotgun w s ct avail dT).data.execTime
    ∧ (scheduleSubShotgun w s ct now avail dT times maxRam sbd bmb).data.execTime
        = dT.execTime
          + ((scheduleSubShotgun w s ct now avail dT times maxRam sbd bmb).dispatches.length : ℚ)
            * s.minDeltaBatchExec
    ∧ dT.execTime ≤ (scheduleSubShotgun w s ct now avail dT times maxRam sbd bmb).data.execTime := by
  have hexit := ensureValidExecTime_exit w s wt now fuel d bv dv hhole hv
  have hfeq := ensureFixed_dispatch_eq s obs now tF fb ob dF hdF htF hnf
  have hfull := scheduleFullShotgun_execTime w s ct avail dT
  have hsub := scheduleSubShotgun_execTime w s ct now avail dT times maxRam sbd bmb
  refine ⟨ensureValidExecTime_le w s wt now fuel d bv dv hge hδ hv,
    hexit.1, hexit.2.1, hexit.2.2.1, hexit.2.2.2,
    ensureFixed_execTime_le s obs now fb ob dS hδ,
    by rw [hfeq], hfull, ?_, hsub, ?_⟩
  · rw [hfull]
    have hnn : (0 : ℚ) ≤ ((scheduleFullShotgun w s ct avail dT).dispatches.length : ℚ)
        * s.minDeltaBatchExec := mul_nonneg (Nat.cast_nonneg _) hδ
    linarith
  · rw [hsub]
    have hnn : (0 : ℚ)
        ≤ ((scheduleSubShotgun w s ct now avail dT times maxRam sbd bmb).dispatches.length : ℚ)
          * s.minDeltaBatchExec := mul_nonneg (Nat.cast_nonneg _) hδ
    linarith

/-- Witness for C4: at instant 0 under `cHoles` the record with exec time 0 is
validated to exec time 16 (which is at least `nextLowSecEnd 0 + 1 + 5 = 16`
and collision-free); a dispatching `ensureFixed` advances exec time by
exactly 1, and both shotgun schedulers advance it by the dispatch count
times 1. -/
theorem execTime_monotone_witness :
    ensureValidExecTime cHoles cSettings 5 0 2 cDataPend0 = some (true, cDataPend16)
    ∧ (cDataPend0.execTime ≤ cDataPend16.execTime
      ∧ cHoles.getNextLowSecEnd 0 + cSettings.minDeltaBatchExec + 5 ≤ cDataPend16.execTime
      ∧ cHoles.inLowSecHole cDataPend16.execTime = false
      ∧ cHoles.inLowSecHole (cDataPend16.execTime - cSettings.minDeltaBatchExec) = false
      ∧ ¬ cHoles.getNextSecHole (cDataPend16.execTime - cSettings.minDeltaBatchExec)
          < cDataPend16.execTime
      ∧ cDataPend0.execTime
          ≤ (ensureFixed cSettings cObsUnfixed 0 cFixBatch cOptBatch cDataPend0).2.1.execTime
      ∧ (ensureFixed cSettings cObsUnfixed 0 cFixBatch cOptBatch cDataPend0).2.1.execTime
          = cDataPend0.execTime + cSettings.minDeltaBatchExec
      ∧ (scheduleFullShotgun cHoles cSettings cTable 1000 cDataPend16).data.execTime
          = cDataPend16.execTime
            + ((scheduleFullShotgun cHoles cSettings cTable 1000 cDataPend16).dispatches.length : ℚ)
              * cSettings.minDeltaBatchExec
      ∧ cDataPend16.execTime
          ≤ (scheduleFullShotgun cHoles cSettings cTable 1000 cDataPend16).data.execTime
      ∧ (scheduleSubShotgun cHoles cSettings cTable 0 1000 cDataPend16 [] 50 (none, 0)
            (fun _ => ⟨0, 0, 0⟩)).data.execTime
          = cDataPend16.execTime
            + ((scheduleSubShotgun cHoles cSettings cTable 0 1000 cDataPend16 [] 50 (none, 0)
                (fun _ => ⟨0, 0, 0⟩)).dispatches.length : ℚ)
              * cSettings.minDeltaBatchExec
      ∧ cDataPend16.execTime
          ≤ (scheduleSubShotgun cHoles cSettings cTable 0 1000 cDataPend16 [] 50 (none, 0)
              (fun _ => ⟨0, 0, 0⟩)).data.execTime) :=
  ⟨by with_unfolding_all decide,
   execTime_monotone cHoles cSettings cTable 5 0 2 cDataPend0 cDataPend16 true
     cObsUnfixed cFixBatch cOptBatch cDataPend0 cDataPend0 cDataPend16 0 1000 50 []
     (none, 0) (fun _ => ⟨0, 0, 0⟩)
     (fun u => le_max_left u 10) (by norm_num [cSettings])
     (by with_unfolding_all decide) (by with_unfolding_all decide)
     (by with_unfolding_all decide) (by norm_num)
     (by with_unfolding_all decide)⟩

end HSB
